import Mathlib

/-!
Verification development for the research-paper search service
(`pdf_processor.py` / `main.py`): a shallow embedding of the
`ResearchPaperProcessor` facade and its HTTP summary endpoint, with the
external collaborators (PDF loader, chunker output, vector store, OpenAI
completion client, JSON codec) represented as explicit environments.
-/

namespace ResearchSearch

/-- Strings are modelled as lists of characters; Python string operations
(`lower`, `split`, `count`, `in`) are embedded below at this level. -/
abbrev Str := List Char

/-- Python `str.lower()` (character-wise lowercasing). -/
def lowerStr (s : Str) : Str := s.map Char.toLower

/-- Helper for `splitWS`: accumulates the current word (reversed). -/
def splitWSAux : Str → Str → List Str
  | acc, [] => if acc = [] then [] else [acc.reverse]
  | acc, c :: rest =>
    if c.isWhitespace then
      if acc = [] then splitWSAux [] rest
      else acc.reverse :: splitWSAux [] rest
    else splitWSAux (c :: acc) rest

/-- Python `str.split()` with no argument: split on runs of whitespace,
dropping empty pieces. -/
def splitWS (s : Str) : List Str := splitWSAux [] s

/-- Boolean prefix test on character lists. -/
def isPrefixB : Str → Str → Bool
  | [], _ => true
  | _ :: _, [] => false
  | a :: as, b :: bs => a = b && isPrefixB as bs

/-- Python `needle in hay` (substring containment). -/
def containsSub (hay needle : Str) : Bool :=
  match hay with
  | [] => isPrefixB needle []
  | _ :: rest => isPrefixB needle hay || containsSub rest needle

/-- Helper for `countOccs`: scans `hay` left to right; after a match the
next `needle.length - 1` characters are skipped so occurrences do not
overlap, exactly as Python `str.count` counts. -/
def countOccsAux (needle : Str) : Str → Nat → Nat
  | [], _ => 0
  | _ :: rest, k + 1 => countOccsAux needle rest k
  | c :: rest, 0 =>
    if isPrefixB needle (c :: rest) then 1 + countOccsAux needle rest (needle.length - 1)
    else countOccsAux needle rest 0

/-- Python `hay.count(needle)`: number of non-overlapping occurrences of
`needle` in `hay` (with Python's `len(hay) + 1` convention for an empty
needle). -/
def countOccs (needle hay : Str) : Nat :=
  match needle with
  | [] => hay.length + 1
  | _ :: _ => countOccsAux needle hay 0

/-- A `ProcessingRecord`: the value stored in `self.processed_papers` by
`process_pdf` (`processed_at`, `chunks_processed`, `total_characters`,
`status`). -/
structure PRec where
  processed_at : String
  chunks_processed : Nat
  total_characters : Nat
  status : String
deriving DecidableEq, Repr

/-- Python `dict` lookup on the insertion-ordered ledger. -/
def lkup (k : String) : List (String × PRec) → Option PRec
  | [] => none
  | (k', v) :: rest => if k' = k then some v else lkup k rest

/-- Python `dict` assignment `d[k] = v`: updates in place if the key is
present (keeping its position), otherwise appends. -/
def upsert (k : String) (v : PRec) : List (String × PRec) → List (String × PRec)
  | [] => [(k, v)]
  | (k', v') :: rest => if k' = k then (k, v) :: rest else (k', v') :: upsert k v rest

/-- One chunk produced by the text splitter (`texts` in `process_pdf`). -/
structure Chunk where
  page_content : Str
deriving DecidableEq, Repr

/-- One entry of the Chroma collection: chunk content plus the metadata
attached in `process_pdf` (`source`, `chunk_id`, `file_type`). -/
structure IdxEntry where
  content : Str
  source : String
  chunk_id : Nat
  file_type : String
deriving DecidableEq, Repr

/-- The processor's mutable state: the in-memory ledger dict
(`self.processed_papers`) and the vector-store collection. -/
structure PState where
  ledger : List (String × PRec)
  index : List IdxEntry
deriving DecidableEq, Repr

/-- Environment of one `process_pdf` call: the timestamp, the combined
outcome of `PyPDFLoader(...).load()` + `split_documents` (which either
raises or yields the chunk list), and the outcome of
`vectorstore.add_documents`. -/
structure PEnv where
  now : String
  loadAndSplit : Except String (List Chunk)
  addOk : Except String Unit

/-- The metadata loop of `process_pdf`: chunk `i` gets
`{source, chunk_id := i, file_type := "pdf"}`. -/
def mkEntries (name : String) (i : Nat) : List Chunk → List IdxEntry
  | [] => []
  | t :: rest => ⟨t.page_content, name, i, "pdf"⟩ :: mkEntries name (i + 1) rest

/-- The dict `process_pdf` returns. -/
inductive PResult where
  | success (filename : String) (chunks_processed : Nat) (total_characters : Nat)
  | error (filename : String) (msg : String)
deriving DecidableEq, Repr

/-- `ResearchPaperProcessor.process_pdf` (pdf_processor.py:96-145).
`vs` is the truthiness of `self.vectorstore`. On success the chunk
entries are added to the index (when the store is available) and a
`status="processed"` record is upserted into the ledger; any exception
is caught and turned into the error dict, leaving the state untouched. -/
def process_pdf (vs : Bool) (env : PEnv) (st : PState) (name : String) : PState × PResult :=
  match env.loadAndSplit with
  | Except.error e => (st, PResult.error name e)
  | Except.ok texts =>
    match (if vs then env.addOk else Except.ok ()) with
    | Except.error e => (st, PResult.error name e)
    | Except.ok _ =>
      let st1 := if vs then { st with index := st.index ++ mkEntries name 0 texts } else st
      let chars := (texts.map (fun t => t.page_content.length)).sum
      let r : PRec := ⟨env.now, texts.length, chars, "processed"⟩
      ({ st1 with ledger := upsert name r st1.ledger },
       PResult.success name texts.length chars)

/-- Truthiness of an `Except` outcome. -/
def exOk {α : Type} : Except String α → Bool
  | Except.ok _ => true
  | Except.error _ => false

/-- A file's processing succeeds iff load+split succeeds and, when the
vector store is available, the add succeeds too. -/
def fileSucceeds (vs : Bool) (env : PEnv) : Bool :=
  exOk env.loadAndSplit && (!vs || exOk env.addOk)

/-- The index entries one `process_pdf` call contributes. -/
def entriesOf (vs : Bool) (env : PEnv) (name : String) : List IdxEntry :=
  match env.loadAndSplit with
  | Except.error _ => []
  | Except.ok texts => if vs && exOk env.addOk then mkEntries name 0 texts else []

/-- The `for pdf_file in pdf_files` loop of `reprocess_all_papers`:
processes each file in order, collecting the per-file results. -/
def processBatch (vs : Bool) (fe : String → PEnv) : List String → PState → PState × List PResult
  | [], st => (st, [])
  | f :: fs, st =>
    let p := process_pdf vs (fe f) st f
    let rest := processBatch vs fe fs p.1
    (rest.1, p.2 :: rest.2)

/-- Environment of one `reprocess_all_papers` call: whether
`delete_collection` raises, the availability of the store after each
`_initialize_vectorstore` call, and the per-file processing environment. -/
structure REnv where
  deleteFail : Option String
  reinitAvail1 : Bool
  reinitAvail2 : Bool
  fileEnv : String → PEnv

/-- The dict `reprocess_all_papers` returns. -/
inductive RResult where
  | completed (total_files : Nat) (results : List PResult)
  | error (msg : String)
deriving DecidableEq, Repr

/-- `ResearchPaperProcessor.reprocess_all_papers` (pdf_processor.py:415-453).
`vs0` is the truthiness of `self.vectorstore` at entry; `files` is the
glob of the upload directory at call time. Clears the collection (when
available) and the ledger, reinitializes the store, then processes every
file; the outer `except` converts a `delete_collection` failure into the
error dict. Returns (final state, final store availability, result). -/
def reprocess_all (env : REnv) (vs0 : Bool) (files : List String) (st : PState) :
    PState × Bool × RResult :=
  match (if vs0 then
            match env.deleteFail with
            | some e => Except.error e
            | none => Except.ok { st with index := [] }
          else Except.ok st : Except String PState) with
  | Except.error e => (st, vs0, RResult.error e)
  | Except.ok st1 =>
    let st2 : PState := { st1 with ledger := [] }
    let vs1 := env.reinitAvail1
    let batch := processBatch vs1 env.fileEnv files st2
    let vs2 := if vs1 then vs1 else env.reinitAvail2
    (batch.1, vs2, RResult.completed files.length batch.2)

/-- A retrieved source document from the QA chain, with the optional
metadata keys read via `metadata.get(..., default)`. -/
structure Doc where
  page_content : Str
  source : Option String
  chunk_id : Option Nat
deriving DecidableEq, Repr

/-- The dict returned by `self.qa_chain({"query": ...})`: the answer text
and, when the `source_documents` key is present, its document list. -/
structure QAResult where
  result : String
  source_documents : Option (List Doc)
deriving DecidableEq, Repr

/-- One citation dict in a query response; `pdf_link`/`summary_link` are
`none` when the corresponding keys are absent from the Python dict. -/
structure Source where
  content : Str
  source : String
  chunk_id : Nat
  pdf_link : Option String := none
  summary_link : Option String := none
deriving DecidableEq, Repr

/-- The dict `query_papers` returns. -/
structure QueryResult where
  answer : String
  sources : List Source
  question : String
deriving DecidableEq, Repr

/-- Outcome of the fallback path's per-paper PDF load: the file may be
absent from the upload directory, the loader may raise, or it yields the
page texts. -/
inductive LoadOutcome where
  | missing
  | raises (msg : String)
  | pages (ps : List Str)
deriving DecidableEq, Repr

/-- Environment of one `query_papers` call: availability of
`self.qa_chain and self.vectorstore`, the outcome of the QA-chain call,
of the `OpenAI(...)` client construction, of the per-paper loads, and of
the two `chat.completions.create` calls. -/
structure QEnv where
  qaAvailable : Bool
  qaCall : Except String QAResult
  clientInit : Except String Unit
  load : String → LoadOutcome
  chatTop : Except String String
  chatGeneral : Except String String

/-- The hardcoded bonus vocabulary `xyy_terms` (pdf_processor.py:209). -/
def xyyTerms : List Str :=
  ["xyy".toList, "47,xyy".toList, "jacob".toList, "syndrome".toList,
   "trisomy".toList, "chromosome".toList]

/-- Python `"\n".join(pages)`. -/
def joinNL (ps : List Str) : Str := List.intercalate ['\n'] ps

/-- The two scoring loops of the fallback (pdf_processor.py:204-212):
question terms add their occurrence counts, bonus-vocabulary terms add
double-weighted counts, each guarded by a substring membership test. -/
def codeScore (searchTerms : List Str) (contentLower : Str) : Nat :=
  let s1 := searchTerms.foldl
    (fun acc term => if containsSub contentLower term then acc + countOccs term contentLower else acc) 0
  xyyTerms.foldl
    (fun acc term => if containsSub contentLower term then acc + countOccs term contentLower * 2 else acc) s1

/-- The relevant snippet: first 2000 characters, with `"..."` appended
when the content is longer (pdf_processor.py:216). -/
def snippet2000 (content : Str) : Str :=
  if content.length > 2000 then content.take 2000 ++ "...".toList else content

/-- One element of `relevant_papers`. -/
structure RelPaper where
  filename : String
  relevance_score : Nat
  content : Str
deriving DecidableEq, Repr

/-- The body of the fallback's `for filename, info in
self.processed_papers.items()` loop (pdf_processor.py:190-224) for one
ledger entry: papers without a `processed` status are not scored, a
missing file is skipped, a per-paper exception is caught and skipped
with `continue`, and only a strictly positive score yields a candidate. -/
def scoreOne (env : QEnv) (searchTerms : List Str) (fi : String × PRec) : Option RelPaper :=
  if fi.2.status = "processed" then
    match env.load fi.1 with
    | LoadOutcome.missing => none
    | LoadOutcome.raises _ => none
    | LoadOutcome.pages ps =>
      let content := joinNL ps
      let score := codeScore searchTerms (lowerStr content)
      if 0 < score then some ⟨fi.1, score, snippet2000 content⟩ else none
  else none

/-- The fallback's scoring loop itself: appends the candidate produced by
each ledger entry, in ledger iteration order. -/
def relevantPapers (env : QEnv) (searchTerms : List Str) : List (String × PRec) → List RelPaper
  | [] => []
  | fi :: rest =>
    match scoreOne env searchTerms fi with
    | some p => p :: relevantPapers env searchTerms rest
    | none => relevantPapers env searchTerms rest

/-- Insertion step of the stable descending sort: `x` (originally earlier
than every element of the list) is placed before the first element whose
score does not exceed `x`'s. -/
def insertDesc (x : RelPaper) : List RelPaper → List RelPaper
  | [] => [x]
  | y :: ys => if x.relevance_score < y.relevance_score then y :: insertDesc x ys
               else x :: y :: ys

/-- `relevant_papers.sort(key=..., reverse=True)` (pdf_processor.py:227):
Python's sort is stable, so equal scores keep their original order. -/
def sortDesc : List RelPaper → List RelPaper
  | [] => []
  | x :: xs => insertDesc x (sortDesc xs)

/-- The scored papers of the fallback, in ledger iteration order. -/
def fallbackCandidates (env : QEnv) (question : String) (ledger : List (String × PRec)) :
    List RelPaper :=
  relevantPapers env (splitWS (lowerStr question.toList)) ledger

/-- `top_papers = relevant_papers[:3]` after the descending sort. -/
def topPapers (env : QEnv) (question : String) (ledger : List (String × PRec)) : List RelPaper :=
  (sortDesc (fallbackCandidates env question ledger)).take 3

/-- The `for i, paper in enumerate(top_papers)` loop building `sources`
(pdf_processor.py:235-241): the citation's `chunk_id` is the enumeration
index `i`, not a chunk ordinal of the paper. -/
def mkTopSources (i : Nat) : List RelPaper → List Source
  | [] => []
  | p :: rest => ⟨p.content.take 200 ++ "...".toList, p.filename, i, none, none⟩ ::
      mkTopSources (i + 1) rest

/-- The `enhanced_sources` loop (pdf_processor.py:259-268): adds the
clickable `pdf_link` and `summary_link` keyed by the source filename. -/
def enhanceSources (sources : List Source) : List Source :=
  sources.map (fun s =>
    { s with pdf_link := some ("/paper/" ++ s.source),
             summary_link := some ("/paper/" ++ s.source ++ "/summary") })

/-- The answer string of the inner `except` handler (pdf_processor.py:298). -/
def apologeticAnswer (e : String) : String :=
  "I'm sorry, I'm having trouble accessing the research papers right now. Please try again later. Error: " ++ e

/-- The synthetic citation of the no-relevant-papers branch
(pdf_processor.py:291). -/
def generalSource : Source :=
  ⟨"General knowledge about XYY syndrome".toList, "AI Knowledge Base", 0, none, none⟩

/-- The fallback block of `query_papers` (pdf_processor.py:181-301): its
whole body sits in a `try`, so a client-construction or completion
failure is caught and answered apologetically with no citations. -/
def fallbackQuery (env : QEnv) (question : String) (ledger : List (String × PRec)) :
    QueryResult :=
  match env.clientInit with
  | Except.error e => ⟨apologeticAnswer e, [], question⟩
  | Except.ok _ =>
    let tops := topPapers env question ledger
    if tops.isEmpty then
      match env.chatGeneral with
      | Except.error e => ⟨apologeticAnswer e, [], question⟩
      | Except.ok ans => ⟨ans, [generalSource], question⟩
    else
      match env.chatTop with
      | Except.error e => ⟨apologeticAnswer e, [], question⟩
      | Except.ok ans => ⟨ans, enhanceSources (mkTopSources 0 tops), question⟩

/-- A citation built from a QA-chain source document
(pdf_processor.py:163-168), with the `metadata.get` defaults. -/
def mkIdxSource (d : Doc) : Source :=
  ⟨d.page_content.take 200 ++ "...".toList, d.source.getD "Unknown", d.chunk_id.getD 0,
   none, none⟩

/-- `ResearchPaperProcessor.query_papers` (pdf_processor.py:147-309).
The index path is used when the chain is available and its result dict
contains the `source_documents` key (of any length, including zero); the
fallback runs when the chain is unavailable or the key is absent; the
outer `except` catches a raising chain call. -/
def query_papers (env : QEnv) (question : String) (ledger : List (String × PRec)) :
    QueryResult :=
  if env.qaAvailable then
    match env.qaCall with
    | Except.error e => ⟨"Error processing query: " ++ e, [], question⟩
    | Except.ok r =>
      match r.source_documents with
      | some docs => ⟨r.result, docs.map mkIdxSource, question⟩
      | none => fallbackQuery env question ledger
  else fallbackQuery env question ledger

/-- Which provider-call failure, if any, an execution of the fallback
block encounters on its taken path: the client construction, then
whichever completion call its branch makes. -/
def fallbackFailure (env : QEnv) (question : String) (ledger : List (String × PRec)) :
    Option String :=
  match env.clientInit with
  | Except.error e => some e
  | Except.ok _ =>
    if (topPapers env question ledger).isEmpty then
      match env.chatGeneral with
      | Except.error e => some e
      | Except.ok _ => none
    else
      match env.chatTop with
      | Except.error e => some e
      | Except.ok _ => none

/-- Which provider-call failure, if any, the execution of `query_papers`
encounters on its taken path (first the QA chain, then the fallback's
calls). -/
def providerFailure (env : QEnv) (question : String) (ledger : List (String × PRec)) :
    Option String :=
  if env.qaAvailable then
    match env.qaCall with
    | Except.error e => some e
    | Except.ok r =>
      match r.source_documents with
      | some _ => none
      | none => fallbackFailure env question ledger
  else fallbackFailure env question ledger

/-- The dict `get_paper_summary` returns. -/
structure SummaryResult where
  filename : String
  summary : String
  sources : List Source
deriving DecidableEq, Repr

/-- Environment of one `get_paper_summary` call: the query-engine
environment used by the vector-store attempt and the fallback's direct
completion call. -/
structure SEnv where
  q : QEnv
  chatSummary : Except String String

/-- The summarization question built at pdf_processor.py:325. -/
def summaryQuery (filename : String) : String :=
  "Provide a comprehensive summary of the research paper " ++ filename ++
    ". Include the main research question, methodology, key findings, and conclusions."

/-- `ResearchPaperProcessor.get_paper_summary` (pdf_processor.py:311-392).
A filename absent from the ledger returns the plain
"Paper not found or not processed yet." dict; otherwise the QA-chain
attempt is used when it yields any citation, else a direct completion
over the paper text, with every failure caught and stringified. -/
def get_paper_summary (env : SEnv) (ledger : List (String × PRec)) (filename : String) :
    SummaryResult :=
  match lkup filename ledger with
  | none => ⟨filename, "Paper not found or not processed yet.", []⟩
  | some _ =>
    let viaIndex : Option SummaryResult :=
      if env.q.qaAvailable then
        let r := query_papers env.q (summaryQuery filename) ledger
        if r.sources.isEmpty then none else some ⟨filename, r.answer, r.sources⟩
      else none
    match viaIndex with
    | some res => res
    | none =>
      match env.q.clientInit with
      | Except.error e => ⟨filename, "Unable to generate summary: " ++ e, []⟩
      | Except.ok _ =>
        match env.q.load filename with
        | LoadOutcome.missing => ⟨filename, "Paper file not found.", []⟩
        | LoadOutcome.raises e => ⟨filename, "Unable to generate summary: " ++ e, []⟩
        | LoadOutcome.pages _ =>
          match env.chatSummary with
          | Except.error e => ⟨filename, "Unable to generate summary: " ++ e, []⟩
          | Except.ok s =>
            ⟨filename, s, [⟨"Summary generated from full paper content".toList, filename, 0,
                            none, none⟩]⟩

/-- An HTTP response of the summary route: a 200 with a body, or an
`HTTPException` with a status code and detail. -/
inductive HResp where
  | ok (code : Nat) (body : SummaryResult)
  | err (code : Nat) (detail : String)
deriving DecidableEq, Repr

/-- The `GET /paper/{filename}/summary` handler (main.py:236-247): it
returns the processor's dict as a 200; its `except` branch (a 500) is
unreachable because `get_paper_summary` catches everything itself. -/
def summaryEndpoint (env : SEnv) (ledger : List (String × PRec)) (filename : String) : HResp :=
  HResp.ok 200 (get_paper_summary env ledger filename)

/-- Whether a response is a 404-style client error. -/
def isNotFound : HResp → Bool
  | HResp.err c _ => c = 404
  | HResp.ok _ _ => false

/-- Unary encoding of a numeric ledger field. Modelled from the spec:
stands in for the number serialization of the external `json` library;
any injective encoding with a partial inverse serves the atomicity
analysis of §4.4. -/
def encodeNatU (n : Nat) : Str := List.replicate n '#'

/-- Partial inverse of `encodeNatU`. -/
def decodeNatU (s : Str) : Option Nat :=
  if s.all (fun c => c = '#') then some s.length else none

/-- Split a character list at every occurrence of `c`. -/
def splitCharAux (c : Char) : Str → Str → List Str
  | acc, [] => [acc.reverse]
  | acc, x :: xs => if x = c then acc.reverse :: splitCharAux c [] xs
                    else splitCharAux c (x :: acc) xs

/-- Split a character list at every occurrence of `c`. -/
def splitChar (c : Char) (s : Str) : List Str := splitCharAux c [] s

/-- Serialization of one ledger record. Modelled from the spec: stands in
for `json.dump`'s rendering of one `filename: ProcessingRecord` pair
(the `json` library is an external collaborator). -/
def encodeEntry (e : String × PRec) : Str :=
  e.1.toList ++ '|' :: e.2.processed_at.toList ++ '|' :: encodeNatU e.2.chunks_processed ++
    '|' :: encodeNatU e.2.total_characters ++ '|' :: e.2.status.toList ++ ['\n']

/-- Serialization of the whole ledger mapping, as written by
`_save_processed_papers`. -/
def encodeLedger (l : List (String × PRec)) : Str := (l.map encodeEntry).flatten

/-- Partial inverse of `encodeEntry`. -/
def decodeEntry (line : Str) : Option (String × PRec) :=
  match splitChar '|' line with
  | [n, pa, ch, tc, stt] =>
    match decodeNatU ch, decodeNatU tc with
    | some c, some t => some (String.mk n, ⟨String.mk pa, c, t, String.mk stt⟩)
    | _, _ => none
  | _ => none

/-- Partial inverse of `encodeLedger`: parsing of the ledger file. -/
def decodeLedger (s : Str) : Option (List (String × PRec)) :=
  ((splitChar '\n' s).filter (fun l => l ≠ [])).mapM decodeEntry

/-- `_load_processed_papers` (pdf_processor.py:46-55) applied to given
file contents: a parse failure is caught and yields the empty mapping. -/
def loadLedgerFile (s : Str) : List (String × PRec) := (decodeLedger s).getD []

/-- The file contents observable if the process crashes at any point of
`_save_processed_papers` (pdf_processor.py:57-63): `open(file, 'w')`
truncates the ledger file in place, then the serialized mapping is
written left to right — so every prefix of the new contents, starting
with the empty file, is a reachable crash state. -/
def saveCrashStates (newContents : Str) : List Str :=
  (List.range (newContents.length + 1)).map (fun n => newContents.take n)

/-- Spec-side rendering of the §4.5 step-2 relevance score: the sum over
the question's lower-cased whitespace-split terms of their occurrence
counts in the lower-cased paper text, plus twice the occurrence count of
each bonus-vocabulary term. -/
def specScore (question : String) (content : Str) : Nat :=
  let terms := splitWS (lowerStr question.toList)
  let cl := lowerStr content
  (terms.map (fun t => countOccs t cl)).sum + (xyyTerms.map (fun t => 2 * countOccs t cl)).sum

/-- Spec-side rendering of one §4.5 step-2 paper: a `processed`,
loadable paper is kept iff its `specScore` is strictly positive. -/
def specFilter (env : QEnv) (question : String) (fi : String × PRec) : Option RelPaper :=
  if fi.2.status = "processed" then
    match env.load fi.1 with
    | LoadOutcome.pages ps =>
      if 0 < specScore question (joinNL ps) then
        some ⟨fi.1, specScore question (joinNL ps), snippet2000 (joinNL ps)⟩
      else none
    | _ => none
  else none

/-- Spec-side rendering of the §4.5 step-2 candidate pipeline: score every
loadable `processed` paper, keep strictly positive scores, stable-sort
descending, take the top 3. -/
def specTopCandidates (env : QEnv) (question : String) (ledger : List (String × PRec)) :
    List RelPaper :=
  (sortDesc (ledger.filterMap (specFilter env question))).take 3

def envC1 : PEnv := ⟨"t0", Except.error "load failed", Except.ok ()⟩

def envC2 : QEnv :=
  ⟨true, Except.ok ⟨"INDEX-ANSWER", some []⟩, Except.ok (),
   fun _ => LoadOutcome.missing, Except.ok "TOP", Except.ok "FALLBACK-ANSWER"⟩

def envC4 : SEnv :=
  ⟨⟨false, Except.error "unused", Except.error "unused", fun _ => LoadOutcome.missing,
    Except.error "unused", Except.error "unused"⟩, Except.error "unused"⟩

def prC5 : PRec := ⟨"t0", 1, 2, "processed"⟩

def enC5 : IdxEntry := ⟨"old".toList, "old.pdf", 0, "pdf"⟩

def stC5 : PState := ⟨[("old.pdf", prC5)], [enC5]⟩

def envC5 : REnv := ⟨none, true, true, fun _ => ⟨"t1", Except.error "bad pdf", Except.ok ()⟩⟩

def prC6a : PRec := ⟨"t1", 1, 2, "processed"⟩

def prC6b : PRec := ⟨"t2", 0, 0, "processed"⟩

def prC6c : PRec := ⟨"t3", 1, 1, "processed"⟩

def oldC6 : List (String × PRec) := [("a.pdf", prC6a), ("b.pdf", prC6b)]

def newC6 : List (String × PRec) := upsert "b.pdf" prC6c oldC6

def envC7 : QEnv :=
  ⟨false, Except.error "unused", Except.error "provider down",
   fun _ => LoadOutcome.missing, Except.error "unused2", Except.error "unused3"⟩

def prC9 : PRec := ⟨"t", 1, 3, "processed"⟩

def envC9 : QEnv :=
  ⟨false, Except.error "u", Except.ok (),
   fun f => if f = "bad.pdf" then LoadOutcome.raises "boom" else LoadOutcome.pages ["xyy".toList],
   Except.ok "A", Except.ok "B"⟩

def prC10 : PRec := ⟨"t", 1, 3, "processed"⟩

def ledgerC10 : List (String × PRec) := [("a.pdf", prC10)]

def envC10 : QEnv :=
  ⟨false, Except.error "u", Except.ok (), fun _ => LoadOutcome.pages ["xyy".toList],
   Except.ok "ANS", Except.error "u2"⟩

theorem isPrefixB_refl (l : Str) : isPrefixB l l = true := by
  induction l with
  | nil => rfl
  | cons c rest ih => simp [isPrefixB, ih]

theorem containsSub_self (l : Str) : containsSub l l = true := by
  cases l with
  | nil => rfl
  | cons c rest => simp [containsSub, isPrefixB_refl]

theorem containsSub_append_right (l r : Str) : containsSub (l ++ r) r = true := by
  induction l with
  | nil => simpa using containsSub_self r
  | cons c rest ih => simp [containsSub, ih]

theorem isPrefixB_nil_left (l : Str) : isPrefixB [] l = true := rfl

theorem countOccsAux_eq_zero (needle : Str) (hay : Str)
    (h : containsSub hay needle = false) : countOccsAux needle hay 0 = 0 := by
  induction hay with
  | nil => rfl
  | cons c rest ih =>
    have h' : isPrefixB needle (c :: rest) = false ∧ containsSub rest needle = false := by
      simpa [containsSub] using h
    simp [countOccsAux, h'.1, ih h'.2]

theorem countOccs_eq_zero (needle hay : Str)
    (h : containsSub hay needle = false) : countOccs needle hay = 0 := by
  cases needle with
  | nil =>
    exfalso
    cases hay with
    | nil => simp [containsSub, isPrefixB] at h
    | cons c rest => simp [containsSub, isPrefixB] at h
  | cons n ns => simpa [countOccs] using countOccsAux_eq_zero (n :: ns) hay h

theorem foldl_guard_sum (cl : Str) (g : Str → Nat)
    (hz : ∀ t, containsSub cl t = false → g t = 0) :
    ∀ (terms : List Str) (a : Nat),
      terms.foldl (fun acc t => if containsSub cl t then acc + g t else acc) a
        = a + (terms.map g).sum := by
  intro terms
  induction terms with
  | nil => intro a; simp
  | cons t ts ih =>
    intro a
    cases h : containsSub cl t with
    | true => simp [h, ih, Nat.add_assoc]
    | false => simp [h, ih, hz t h]

theorem codeScore_eq (terms : List Str) (cl : Str) :
    codeScore terms cl
      = (terms.map (fun t => countOccs t cl)).sum
        + (xyyTerms.map (fun t => 2 * countOccs t cl)).sum := by
  have h1 := foldl_guard_sum cl (fun t => countOccs t cl)
    (fun t ht => countOccs_eq_zero t cl ht) terms 0
  have h2 := foldl_guard_sum cl (fun t => countOccs t cl * 2)
    (fun t ht => by simp [countOccs_eq_zero t cl ht]) xyyTerms
  have h3 : (xyyTerms.map (fun t => countOccs t cl * 2)).sum
      = (xyyTerms.map (fun t => 2 * countOccs t cl)).sum := by
    simp [Nat.mul_comm]
  simp only [codeScore, h1, Nat.zero_add, h2, h3]

theorem specScore_eq_codeScore (question : String) (content : Str) :
    specScore question content
      = codeScore (splitWS (lowerStr question.toList)) (lowerStr content) := by
  rw [specScore, codeScore_eq]

theorem scoreOne_eq_specFilter (env : QEnv) (q : String) (fi : String × PRec) :
    scoreOne env (splitWS (lowerStr q.toList)) fi = specFilter env q fi := by
  rw [scoreOne, specFilter]
  by_cases hst : fi.2.status = "processed"
  · rw [if_pos hst, if_pos hst]
    cases henv : env.load fi.1 with
    | missing => rfl
    | raises m => rfl
    | pages ps =>
      have hsc : codeScore (splitWS (lowerStr q.toList)) (lowerStr (joinNL ps))
          = specScore q (joinNL ps) := (specScore_eq_codeScore q (joinNL ps)).symm
      simp only [hsc]
  · rw [if_neg hst, if_neg hst]

theorem relevantPapers_eq_filterMap (env : QEnv) (terms : List Str) :
    ∀ ledger : List (String × PRec),
      relevantPapers env terms ledger = ledger.filterMap (scoreOne env terms) := by
  intro ledger
  induction ledger with
  | nil => rfl
  | cons fi rest ih =>
    rw [relevantPapers, List.filterMap_cons]
    cases scoreOne env terms fi with
    | some p => rw [ih]
    | none => rw [ih]

theorem fallbackCandidates_eq_filterMap (env : QEnv) (q : String)
    (ledger : List (String × PRec)) :
    fallbackCandidates env q ledger = ledger.filterMap (specFilter env q) := by
  rw [fallbackCandidates, relevantPapers_eq_filterMap]
  exact List.filterMap_congr (fun fi _ => scoreOne_eq_specFilter env q fi)

theorem insertDesc_perm (x : RelPaper) (l : List RelPaper) :
    List.Perm (insertDesc x l) (x :: l) := by
  induction l with
  | nil => exact List.Perm.refl _
  | cons y ys ih =>
    by_cases h : x.relevance_score < y.relevance_score
    · simpa [insertDesc, h] using (ih.cons y).trans (List.Perm.swap x y ys)
    · simp [insertDesc, h]

theorem sortDesc_perm (l : List RelPaper) : List.Perm (sortDesc l) l := by
  induction l with
  | nil => exact List.Perm.refl _
  | cons x xs ih => exact (insertDesc_perm x (sortDesc xs)).trans (ih.cons x)

theorem pairwise_insertDesc (x : RelPaper) (l : List RelPaper)
    (h : List.Pairwise (fun a b => b.relevance_score ≤ a.relevance_score) l) :
    List.Pairwise (fun a b => b.relevance_score ≤ a.relevance_score) (insertDesc x l) := by
  induction l with
  | nil => simp [insertDesc]
  | cons y ys ih =>
    rw [List.pairwise_cons] at h
    by_cases hcmp : x.relevance_score < y.relevance_score
    · rw [insertDesc, if_pos hcmp, List.pairwise_cons]
      refine ⟨fun z hz => ?_, ih h.2⟩
      rcases List.mem_cons.mp (((insertDesc_perm x ys).mem_iff).mp hz) with hz1 | hz1
      · rw [hz1]; exact Nat.le_of_lt hcmp
      · exact h.1 z hz1
    · rw [insertDesc, if_neg hcmp, List.pairwise_cons]
      refine ⟨fun z hz => ?_, List.pairwise_cons.mpr h⟩
      rcases List.mem_cons.mp hz with hz1 | hz1
      · rw [hz1]; exact Nat.le_of_not_lt hcmp
      · exact Nat.le_trans (h.1 z hz1) (Nat.le_of_not_lt hcmp)

theorem sortDesc_pairwise (l : List RelPaper) :
    List.Pairwise (fun a b => b.relevance_score ≤ a.relevance_score) (sortDesc l) := by
  induction l with
  | nil => simp [sortDesc]
  | cons x xs ih => exact pairwise_insertDesc x (sortDesc xs) ih

theorem filter_insertDesc (s : Nat) (x : RelPaper) (l : List RelPaper) :
    (insertDesc x l).filter (fun p => p.relevance_score == s)
      = if x.relevance_score == s
        then x :: l.filter (fun p => p.relevance_score == s)
        else l.filter (fun p => p.relevance_score == s) := by
  induction l with
  | nil => cases hb : (x.relevance_score == s) <;> simp [insertDesc, List.filter, hb]
  | cons y ys ih =>
    by_cases hcmp : x.relevance_score < y.relevance_score
    · rw [insertDesc, if_pos hcmp]
      by_cases hx : x.relevance_score = s
      · have hy : (y.relevance_score == s) = false := by
          apply beq_false_of_ne
          intro hys
          rw [hx] at hcmp
          rw [hys] at hcmp
          exact Nat.lt_irrefl s hcmp
        simp [List.filter, hy, ih, hx]
      · have hxb : (x.relevance_score == s) = false := beq_false_of_ne hx
        simp only [List.filter, ih, hxb, if_neg]
        simp [hxb]
    · rw [insertDesc, if_neg hcmp]
      by_cases hx : x.relevance_score = s
      · simp [List.filter, hx]
      · have hxb : (x.relevance_score == s) = false := beq_false_of_ne hx
        simp [List.filter, hxb]

theorem filter_sortDesc (s : Nat) (l : List RelPaper) :
    (sortDesc l).filter (fun p => p.relevance_score == s)
      = l.filter (fun p => p.relevance_score == s) := by
  induction l with
  | nil => rfl
  | cons x xs ih =>
    rw [sortDesc, filter_insertDesc]
    by_cases hx : x.relevance_score = s
    · simp [List.filter, hx, ih]
    · have hxb : (x.relevance_score == s) = false := beq_false_of_ne hx
      simp [List.filter, hxb, ih]

theorem lkup_append (k : String) :
    ∀ l1 l2 : List (String × PRec),
      lkup k (l1 ++ l2) = match lkup k l1 with
                          | some v => some v
                          | none => lkup k l2 := by
  intro l1 l2
  induction l1 with
  | nil => rfl
  | cons e rest ih =>
    obtain ⟨k1, v1⟩ := e
    by_cases hk : k1 = k
    · simp [lkup, hk]
    · simp [lkup, hk, ih]

theorem upsert_of_lkup_none (k : String) (v : PRec) :
    ∀ l : List (String × PRec), lkup k l = none → upsert k v l = l ++ [(k, v)] := by
  intro l
  induction l with
  | nil => intro _; rfl
  | cons e rest ih =>
    obtain ⟨k1, v1⟩ := e
    intro h
    by_cases hk : k1 = k
    · rw [lkup, if_pos hk] at h; exact absurd h (by simp)
    · rw [lkup, if_neg hk] at h
      rw [upsert, if_neg hk, ih h]
      rfl

theorem processBatch_results_length (vs : Bool) (fe : String → PEnv) :
    ∀ (files : List String) (st : PState),
      (processBatch vs fe files st).2.length = files.length := by
  intro files
  induction files with
  | nil => intro st; rfl
  | cons f fs ih => intro st; simp [processBatch, ih]

theorem processBatch_index (vs : Bool) (fe : String → PEnv) :
    ∀ (files : List String) (st : PState),
      (processBatch vs fe files st).1.index
        = st.index ++ (files.map (fun f => entriesOf vs (fe f) f)).flatten := by
  intro files
  induction files with
  | nil => intro st; simp [processBatch]
  | cons f fs ih =>
    intro st
    rw [List.map_cons, List.flatten_cons]
    cases h1 : (fe f).loadAndSplit with
    | error e =>
      simp [processBatch, process_pdf, h1, entriesOf, ih]
    | ok texts =>
      cases vs with
      | false =>
        simp [processBatch, process_pdf, h1, entriesOf, ih]
      | true =>
        cases h2 : (fe f).addOk with
        | error e =>
          simp [processBatch, process_pdf, h1, h2, entriesOf, exOk, ih]
        | ok u =>
          simp [processBatch, process_pdf, h1, h2, entriesOf, exOk, ih]

theorem processBatch_ledger_keys (vs : Bool) (fe : String → PEnv) :
    ∀ (files : List String) (st : PState), files.Nodup →
      (∀ f ∈ files, lkup f st.ledger = none) →
      (processBatch vs fe files st).1.ledger.map Prod.fst
        = st.ledger.map Prod.fst ++ files.filter (fun f => fileSucceeds vs (fe f)) := by
  intro files
  induction files with
  | nil => intro st _ _; simp [processBatch]
  | cons f fs ih =>
    intro st hnd hinv
    have hndf : fs.Nodup := (List.nodup_cons.mp hnd).2
    have hfnotin : f ∉ fs := (List.nodup_cons.mp hnd).1
    have hf : lkup f st.ledger = none := hinv f (List.mem_cons_self f fs)
    cases hsucc : fileSucceeds vs (fe f) with
    | false =>
      have hstate : (process_pdf vs (fe f) st f).1 = st := by
        rw [fileSucceeds] at hsucc
        cases h1 : (fe f).loadAndSplit with
        | error e => simp [process_pdf, h1]
        | ok texts =>
          rw [h1] at hsucc
          cases vs with
          | false => simp [exOk] at hsucc
          | true =>
            cases h2 : (fe f).addOk with
            | error e => simp [process_pdf, h1, h2]
            | ok u => rw [h2] at hsucc; simp [exOk] at hsucc
      rw [processBatch, hstate, ih st hndf (fun g hg => hinv g (List.mem_cons_of_mem f hg)),
        List.filter_cons, hsucc]
      simp
    | true =>
      obtain ⟨texts, h1, h2⟩ :
          ∃ texts, (fe f).loadAndSplit = Except.ok texts ∧
            (if vs then (fe f).addOk else Except.ok ()) = Except.ok () := by
        rw [fileSucceeds] at hsucc
        cases h1 : (fe f).loadAndSplit with
        | error e => rw [h1] at hsucc; simp [exOk] at hsucc
        | ok texts =>
          refine ⟨texts, rfl, ?_⟩
          cases vs with
          | false => rfl
          | true =>
            cases h2 : (fe f).addOk with
            | error e => rw [h1, h2] at hsucc; simp [exOk] at hsucc
            | ok u => simp
      have hledger : (process_pdf vs (fe f) st f).1.ledger
          = st.ledger ++ [(f, ⟨(fe f).now, texts.length,
              (texts.map (fun t => t.page_content.length)).sum, "processed"⟩)] := by
        cases vs with
        | false =>
          simp only [process_pdf, h1]
          exact upsert_of_lkup_none f _ st.ledger hf
        | true =>
          simp only at h2
          simp only [process_pdf, h1, h2]
          exact upsert_of_lkup_none f _ st.ledger hf
      have hinv2 : ∀ g ∈ fs, lkup g (process_pdf vs (fe f) st f).1.ledger = none := by
        intro g hg
        rw [hledger, lkup_append, hinv g (List.mem_cons_of_mem f hg)]
        have hgf : f ≠ g := fun he => hfnotin (he ▸ hg)
        simp [lkup, hgf]
      rw [processBatch]
      rw [ih (process_pdf vs (fe f) st f).1 hndf hinv2, hledger]
      rw [List.filter_cons, hsucc]
      simp

theorem str_toList_append (a b : String) :
    (a ++ b).toList = a.toList ++ b.toList := by
  cases a; cases b; rfl

theorem containsSub_str_append (p e : String) :
    containsSub (p ++ e).toList e.toList = true := by
  rw [str_toList_append]
  exact containsSub_append_right _ _

theorem nil_mem_saveCrashStates (s : Str) : [] ∈ saveCrashStates s := by
  rw [saveCrashStates]
  rw [List.mem_map]
  exact ⟨0, List.mem_range.mpr (Nat.succ_pos _), rfl⟩

theorem loadLedgerFile_nil : loadLedgerFile [] = [] := rfl

theorem mkTopSources_length : ∀ (l : List RelPaper) (i : Nat), (mkTopSources i l).length = l.length := by
  intro l
  induction l with
  | nil => intro i; rfl
  | cons p rest ih => intro i; simp [mkTopSources, ih]

theorem enhance_mkTop_cons (p : RelPaper) (rest : List RelPaper) (i : Nat) :
    enhanceSources (mkTopSources i (p :: rest))
      = ⟨p.content.take 200 ++ "...".toList, p.filename, i,
          some ("/paper/" ++ p.filename), some ("/paper/" ++ p.filename ++ "/summary")⟩ ::
        enhanceSources (mkTopSources (i + 1) rest) := rfl

theorem enhance_mkTop_chunk_ids :
    ∀ (l : List RelPaper) (i : Nat),
      (enhanceSources (mkTopSources i l)).map (fun s => s.chunk_id) = List.range' i l.length := by
  intro l
  induction l with
  | nil => intro i; rfl
  | cons p rest ih =>
    intro i
    rw [enhance_mkTop_cons, List.map_cons, List.length_cons, List.range'_succ, ih (i + 1)]

theorem enhance_mkTop_sources :
    ∀ (l : List RelPaper) (i : Nat),
      (enhanceSources (mkTopSources i l)).map (fun s => s.source)
        = l.map (fun p => p.filename) := by
  intro l
  induction l with
  | nil => intro i; rfl
  | cons p rest ih =>
    intro i
    rw [enhance_mkTop_cons, List.map_cons, List.map_cons, ih (i + 1)]

theorem enhance_mkTop_pdf_links :
    ∀ (l : List RelPaper) (i : Nat),
      (enhanceSources (mkTopSources i l)).map (fun s => s.pdf_link)
        = l.map (fun p => some ("/paper/" ++ p.filename)) := by
  intro l
  induction l with
  | nil => intro i; rfl
  | cons p rest ih =>
    intro i
    rw [enhance_mkTop_cons, List.map_cons, List.map_cons, ih (i + 1)]

theorem enhance_mkTop_summary_links :
    ∀ (l : List RelPaper) (i : Nat),
      (enhanceSources (mkTopSources i l)).map (fun s => s.summary_link)
        = l.map (fun p => some ("/paper/" ++ p.filename ++ "/summary")) := by
  intro l
  induction l with
  | nil => intro i; rfl
  | cons p rest ih =>
    intro i
    rw [enhance_mkTop_cons, List.map_cons, List.map_cons, ih (i + 1)]

/-- Claim C1, counterexample: a `process_pdf` call whose load fails
returns the structured error result, but writes no ledger entry at all
for the file — in particular no `status="error"` record, contrary to the
claim. -/
theorem C1_counterexample :
    process_pdf true envC1 ⟨[], []⟩ "a.pdf" = (⟨[], []⟩, PResult.error "a.pdf" "load failed") ∧
    lkup "a.pdf" (process_pdf true envC1 ⟨[], []⟩ "a.pdf").1.ledger = none := by
  decide

/-- Claim C1, amended: for every PDF whose processing fails in the
Loader/Chunker or Vector Index step, `process_pdf` returns a structured
failure result carrying the error message and never raises past its
boundary, but it records no ledger entry for that filename: the whole
state, ledger included, is left unchanged. -/
theorem C1_amended (vs : Bool) (env : PEnv) (st : PState) (name : String) (e : String)
    (h : env.loadAndSplit = Except.error e ∨
         (vs = true ∧ env.addOk = Except.error e ∧ ∃ t, env.loadAndSplit = Except.ok t)) :
    process_pdf vs env st name = (st, PResult.error name e) := by
  rcases h with h1 | ⟨hvs, hadd, t, hload⟩
  · simp [process_pdf, h1]
  · subst hvs
    simp [process_pdf, hload, hadd]

/-- Claim C1, witness for the amended theorem at a concrete failing load. -/
theorem C1_amended_witness :
    process_pdf true envC1 ⟨[], []⟩ "b.pdf" = (⟨[], []⟩, PResult.error "b.pdf" "load failed") :=
  C1_amended true envC1 ⟨[], []⟩ "b.pdf" "load failed" (Or.inl rfl)

/-- Claim C2, counterexample: with the chain available and a result whose
`source_documents` key is present but empty, `query_papers` returns the
index-path answer with an empty citation list instead of proceeding to
the keyword fallback. -/
theorem C2_counterexample :
    query_papers envC2 "q" [] = ⟨"INDEX-ANSWER", [], "q"⟩ ∧
    fallbackQuery envC2 "q" [] = ⟨"FALLBACK-ANSWER", [generalSource], "q"⟩ ∧
    query_papers envC2 "q" [] ≠ fallbackQuery envC2 "q" [] := by
  decide

/-- Claim C2, amended: the fallback is entered only when the chain is
unavailable or its result lacks the `source_documents` key; when the key
is present with zero entries, the index-path answer is returned with an
empty citation list. -/
theorem C2_amended (env : QEnv) (q : String) (ledger : List (String × PRec)) (r : QAResult)
    (h1 : env.qaAvailable = true) (h2 : env.qaCall = Except.ok r) :
    (r.source_documents = some [] → query_papers env q ledger = ⟨r.result, [], q⟩) ∧
    (r.source_documents = none → query_papers env q ledger = fallbackQuery env q ledger) := by
  constructor
  · intro h3
    simp [query_papers, h1, h2, h3]
  · intro h3
    simp [query_papers, h1, h2, h3]

/-- Claim C2, witness for the amended theorem at a concrete
empty-but-present document list. -/
theorem C2_amended_witness :
    query_papers envC2 "q2" [] = ⟨"INDEX-ANSWER", [], "q2"⟩ :=
  (C2_amended envC2 "q2" [] ⟨"INDEX-ANSWER", some []⟩ rfl rfl).1 rfl

/-- Claim C3: in the fallback path the code's candidate pipeline equals
the spec's — per paper the relevance score is the sum over the question's
lower-cased whitespace-split terms of their occurrence counts in the
lower-cased paper text plus twice the occurrence count of each
bonus-vocabulary term, only strictly positive scores are kept, the sort
is descending (and a permutation), and at most the top 3 are candidates. -/
theorem C3_fallback_scoring (env : QEnv) (q : String) (ledger : List (String × PRec)) :
    topPapers env q ledger = specTopCandidates env q ledger ∧
    List.Pairwise (fun a b => b.relevance_score ≤ a.relevance_score)
      (sortDesc (fallbackCandidates env q ledger)) ∧
    List.Perm (sortDesc (fallbackCandidates env q ledger)) (fallbackCandidates env q ledger) ∧
    (topPapers env q ledger).length ≤ 3 := by
  refine ⟨?_, sortDesc_pairwise _, sortDesc_perm _, ?_⟩
  · rw [topPapers, specTopCandidates, fallbackCandidates_eq_filterMap]
  · rw [topPapers, List.length_take]
    exact Nat.min_le_left _ _

/-- Claim C4, counterexample: a filename absent from the ledger produces
a plain 200 response whose body says "Paper not found or not processed
yet.", not a 404-style failure. -/
theorem C4_counterexample :
    summaryEndpoint envC4 [] "missing.pdf"
        = HResp.ok 200 ⟨"missing.pdf", "Paper not found or not processed yet.", []⟩ ∧
    isNotFound (summaryEndpoint envC4 [] "missing.pdf") = false := by
  decide

/-- Claim C4, amended: for every filename absent from the ledger,
`get_paper_summary` returns a successful (200) response whose summary
text is "Paper not found or not processed yet." with no sources — it
does not fail with a 404 NotFound. -/
theorem C4_amended (env : SEnv) (ledger : List (String × PRec)) (f : String)
    (h : lkup f ledger = none) :
    summaryEndpoint env ledger f
      = HResp.ok 200 ⟨f, "Paper not found or not processed yet.", []⟩ := by
  rw [summaryEndpoint, get_paper_summary, h]

/-- Claim C4, witness for the amended theorem at a concrete absent file. -/
theorem C4_amended_witness :
    summaryEndpoint envC4 [] "absent.pdf"
      = HResp.ok 200 ⟨"absent.pdf", "Paper not found or not processed yet.", []⟩ :=
  C4_amended envC4 [] "absent.pdf" rfl

/-- Claim C5, counterexample: reprocessing one present PDF whose
processing fails leaves the ledger with no record at all for it (and not
the claimed one-record-per-present-PDF ledger), while the batch result
still reports the file's error. -/
theorem C5_counterexample :
    (reprocess_all envC5 true ["a.pdf"] stC5).1.ledger = [] ∧
    lkup "a.pdf" (reprocess_all envC5 true ["a.pdf"] stC5).1.ledger = none ∧
    (reprocess_all envC5 true ["a.pdf"] stC5).2.2
        = RResult.completed 1 [PResult.error "a.pdf" "bad pdf"] := by
  decide

/-- Claim C5, amended: after `reprocess_all_papers` (store handle
available, collection delete succeeding), the ledger holds exactly one
record per PDF whose processing succeeded — files whose processing
failed have no record — the index holds exactly the entries produced by
this call (no entry predating it survives), and the batch still yields
one result per file. -/
theorem C5_amended (env : REnv) (files : List String) (st : PState)
    (h1 : files.Nodup) (h2 : env.deleteFail = none) :
    (reprocess_all env true files st).1.ledger.map Prod.fst
        = files.filter (fun f => fileSucceeds env.reinitAvail1 (env.fileEnv f)) ∧
    (reprocess_all env true files st).1.index
        = (files.map (fun f => entriesOf env.reinitAvail1 (env.fileEnv f) f)).flatten ∧
    (reprocess_all env true files st).2.2
        = RResult.completed files.length
            (processBatch env.reinitAvail1 env.fileEnv files ⟨[], []⟩).2 ∧
    (processBatch env.reinitAvail1 env.fileEnv files ⟨[], []⟩).2.length = files.length := by
  have hred : reprocess_all env true files st
      = ((processBatch env.reinitAvail1 env.fileEnv files ⟨[], []⟩).1,
         (if env.reinitAvail1 then env.reinitAvail1 else env.reinitAvail2),
         RResult.completed files.length
           (processBatch env.reinitAvail1 env.fileEnv files ⟨[], []⟩).2) := by
    rw [reprocess_all, h2]
    rfl
  refine ⟨?_, ?_, ?_, processBatch_results_length _ _ files _⟩
  · rw [hred]
    have hk := processBatch_ledger_keys env.reinitAvail1 env.fileEnv files ⟨[], []⟩ h1
      (fun f _ => rfl)
    simpa using hk
  · rw [hred]
    have hi := processBatch_index env.reinitAvail1 env.fileEnv files ⟨[], []⟩
    simpa using hi
  · rw [hred]

/-- Claim C5, witness for the amended theorem at a concrete batch with a
failing file and stale prior state. -/
theorem C5_amended_witness :
    (reprocess_all envC5 true ["a.pdf"] stC5).1.ledger.map Prod.fst
        = ["a.pdf"].filter (fun f => fileSucceeds envC5.reinitAvail1 (envC5.fileEnv f)) ∧
    (reprocess_all envC5 true ["a.pdf"] stC5).1.index
        = (["a.pdf"].map (fun f => entriesOf envC5.reinitAvail1 (envC5.fileEnv f) f)).flatten ∧
    (reprocess_all envC5 true ["a.pdf"] stC5).2.2
        = RResult.completed (["a.pdf"] : List String).length
            (processBatch envC5.reinitAvail1 envC5.fileEnv ["a.pdf"] ⟨[], []⟩).2 ∧
    (processBatch envC5.reinitAvail1 envC5.fileEnv ["a.pdf"] ⟨[], []⟩).2.length
        = (["a.pdf"] : List String).length :=
  C5_amended envC5 ["a.pdf"] stC5 (by decide) rfl

/-- Sanity check of the ledger file codec on a concrete mapping: decoding
an encoded ledger restores it. -/
theorem ledger_codec_roundtrip_example : loadLedgerFile (encodeLedger oldC6) = oldC6 := by
  decide

/-- Claim C6, counterexample: saving an update of "b.pdf" over a ledger
that also holds "a.pdf" passes through the truncated-empty crash state,
from which loading yields a mapping that has lost "a.pdf" — a record
other than the one in flight — so the persist is not atomic. -/
theorem C6_counterexample :
    [] ∈ saveCrashStates (encodeLedger newC6) ∧
    lkup "a.pdf" oldC6 = some prC6a ∧
    lkup "a.pdf" (loadLedgerFile []) = none ∧
    "a.pdf" ≠ "b.pdf" := by
  refine ⟨nil_mem_saveCrashStates _, by decide, by decide, by decide⟩

/-- Claim C6, amended: `_save_processed_papers` rewrites the ledger file
in place (truncate, then write); the truncated empty file is a reachable
crash state of every save, and loading it yields the empty mapping — a
crash mid-write can therefore lose every previously-successful record,
not just the one in flight; no write-to-temp-then-rename is used. -/
theorem C6_amended (newLedger : List (String × PRec)) (k : String) :
    [] ∈ saveCrashStates (encodeLedger newLedger) ∧ lkup k (loadLedgerFile []) = none :=
  ⟨nil_mem_saveCrashStates _, rfl⟩

/-- Any provider failure on the fallback path yields the apologetic
answer embedding the error with no citations. -/
theorem fallbackQuery_failure (env : QEnv) (q : String) (ledger : List (String × PRec))
    (e : String) (h : fallbackFailure env q ledger = some e) :
    (fallbackQuery env q ledger).sources = [] ∧
    containsSub (fallbackQuery env q ledger).answer.toList e.toList = true := by
  cases hc : env.clientInit with
  | error e1 =>
    simp only [fallbackFailure, hc] at h
    obtain rfl := Option.some.inj h
    refine ⟨by simp [fallbackQuery, hc], ?_⟩
    have ha : (fallbackQuery env q ledger).answer = apologeticAnswer e1 := by
      simp [fallbackQuery, hc]
    rw [ha, apologeticAnswer]
    exact containsSub_str_append _ _
  | ok u =>
    cases hemp : (topPapers env q ledger).isEmpty with
    | true =>
      cases hg : env.chatGeneral with
      | error e1 =>
        simp only [fallbackFailure, hc, hemp, if_true, hg] at h
        obtain rfl := Option.some.inj h
        refine ⟨by simp [fallbackQuery, hc, hemp, hg], ?_⟩
        have ha : (fallbackQuery env q ledger).answer = apologeticAnswer e1 := by
          simp [fallbackQuery, hc, hemp, hg]
        rw [ha, apologeticAnswer]
        exact containsSub_str_append _ _
      | ok ans => simp [fallbackFailure, hc, hemp, hg] at h
    | false =>
      cases hg : env.chatTop with
      | error e1 =>
        simp only [fallbackFailure, hc, hemp, Bool.false_eq_true, if_false, hg] at h
        obtain rfl := Option.some.inj h
        refine ⟨by simp [fallbackQuery, hc, hemp, hg], ?_⟩
        have ha : (fallbackQuery env q ledger).answer = apologeticAnswer e1 := by
          simp [fallbackQuery, hc, hemp, hg]
        rw [ha, apologeticAnswer]
        exact containsSub_str_append _ _
      | ok ans => simp [fallbackFailure, hc, hemp, hg] at h

/-- Claim C7: whenever the completion-provider call of the taken path of
`query_papers` fails, the returned result carries an empty citation list
and an answer string embedding the error detail, and no exception
reaches the caller (the embedding is a total function). -/
theorem C7_provider_failure (env : QEnv) (q : String) (ledger : List (String × PRec))
    (e : String) (h : providerFailure env q ledger = some e) :
    (query_papers env q ledger).sources = [] ∧
    containsSub (query_papers env q ledger).answer.toList e.toList = true := by
  cases hqa : env.qaAvailable with
  | false =>
    have hq : query_papers env q ledger = fallbackQuery env q ledger := by
      simp [query_papers, hqa]
    rw [hq]
    exact fallbackQuery_failure env q ledger e (by simpa [providerFailure, hqa] using h)
  | true =>
    cases hcall : env.qaCall with
    | error e1 =>
      simp only [providerFailure, hqa, if_true, hcall] at h
      obtain rfl := Option.some.inj h
      refine ⟨by simp [query_papers, hqa, hcall], ?_⟩
      have ha : (query_papers env q ledger).answer = "Error processing query: " ++ e1 := by
        simp [query_papers, hqa, hcall]
      rw [ha]
      exact containsSub_str_append _ _
    | ok r =>
      cases hdocs : r.source_documents with
      | some docs => simp [providerFailure, hqa, hcall, hdocs] at h
      | none =>
        have hq : query_papers env q ledger = fallbackQuery env q ledger := by
          simp [query_papers, hqa, hcall, hdocs]
        rw [hq]
        exact fallbackQuery_failure env q ledger e
          (by simpa [providerFailure, hqa, hcall, hdocs] using h)

/-- Claim C7, witness at a concrete environment whose provider client
cannot be constructed. -/
theorem C7_provider_failure_witness :
    (query_papers envC7 "q" []).sources = [] ∧
    containsSub (query_papers envC7 "q" []).answer.toList "provider down".toList = true :=
  C7_provider_failure envC7 "q" [] "provider down" rfl

/-- Claim C8: the fallback's descending sort is stable — for every score,
the equal-score candidates appear in the sorted list exactly in their
ledger iteration order. -/
theorem C8_stable_tie_order (env : QEnv) (q : String) (ledger : List (String × PRec))
    (s : Nat) :
    (sortDesc (fallbackCandidates env q ledger)).filter (fun p => p.relevance_score == s)
      = (fallbackCandidates env q ledger).filter (fun p => p.relevance_score == s) :=
  filter_sortDesc s _

/-- A paper whose load raises contributes no candidate. -/
theorem scoreOne_of_raises (env : QEnv) (terms : List Str) (fi : String × PRec) (m : String)
    (h : env.load fi.1 = LoadOutcome.raises m) :
    scoreOne env terms fi = none := by
  rw [scoreOne, h]
  split
  · rfl
  · rfl

/-- Claim C9: an exception raised while loading or scoring one paper in
the fallback loop is caught and that paper is skipped — the remaining
papers of the ledger are still scored exactly as if the failing entry
were absent, so the per-paper loop never aborts the whole search. -/
theorem C9_skip_raising_paper (env : QEnv) (terms : List Str)
    (l1 l2 : List (String × PRec)) (f : String) (info : PRec) (m : String)
    (h : env.load f = LoadOutcome.raises m) :
    relevantPapers env terms (l1 ++ (f, info) :: l2) = relevantPapers env terms (l1 ++ l2) := by
  have hnone : scoreOne env terms (f, info) = none :=
    scoreOne_of_raises env terms (f, info) m h
  rw [relevantPapers_eq_filterMap, relevantPapers_eq_filterMap, List.filterMap_append,
    List.filterMap_append, List.filterMap_cons, hnone]

/-- Claim C9, witness: a raising paper between two loadable ones is
skipped while the others are scored. -/
theorem C9_skip_raising_paper_witness :
    relevantPapers envC9 ["xyy".toList]
        ([("good1.pdf", prC9)] ++ ("bad.pdf", prC9) :: [("good2.pdf", prC9)])
      = relevantPapers envC9 ["xyy".toList] ([("good1.pdf", prC9)] ++ [("good2.pdf", prC9)]) :=
  C9_skip_raising_paper envC9 ["xyy".toList] [("good1.pdf", prC9)] [("good2.pdf", prC9)]
    "bad.pdf" prC9 "boom" (by decide)

/-- Claim C10: in the fallback's cited branch the citation list has
exactly one entry per candidate paper (at most 3), the `chunk_id` of the
`i`-th citation is the rank `i` (`List.range`), and each citation carries
`pdf_link = "/paper/{filename}"` and
`summary_link = "/paper/{filename}/summary"` for its paper's filename. -/
theorem C10_fallback_citations (env : QEnv) (q : String) (ledger : List (String × PRec))
    (ans : String) (h1 : env.clientInit = Except.ok ()) (h2 : env.chatTop = Except.ok ans)
    (h3 : (topPapers env q ledger).isEmpty = false) :
    (fallbackQuery env q ledger).sources.length = (topPapers env q ledger).length ∧
    (topPapers env q ledger).length ≤ 3 ∧
    (fallbackQuery env q ledger).sources.map (fun s => s.chunk_id)
        = List.range (topPapers env q ledger).length ∧
    (fallbackQuery env q ledger).sources.map (fun s => s.source)
        = (topPapers env q ledger).map (fun p => p.filename) ∧
    (fallbackQuery env q ledger).sources.map (fun s => s.pdf_link)
        = (topPapers env q ledger).map (fun p => some ("/paper/" ++ p.filename)) ∧
    (fallbackQuery env q ledger).sources.map (fun s => s.summary_link)
        = (topPapers env q ledger).map
            (fun p => some ("/paper/" ++ p.filename ++ "/summary")) := by
  have hs : (fallbackQuery env q ledger).sources
      = enhanceSources (mkTopSources 0 (topPapers env q ledger)) := by
    simp [fallbackQuery, h1, h3, h2]
  refine ⟨?_, ?_, ?_, ?_, ?_, ?_⟩
  · rw [hs, enhanceSources, List.length_map, mkTopSources_length]
  · rw [topPapers, List.length_take]
    exact Nat.min_le_left _ _
  · rw [hs, enhance_mkTop_chunk_ids, List.range_eq_range']
  · rw [hs, enhance_mkTop_sources]
  · rw [hs, enhance_mkTop_pdf_links]
  · rw [hs, enhance_mkTop_summary_links]

/-- Claim C10, witness at a concrete fallback run with one candidate. -/
theorem C10_fallback_citations_witness :
    (fallbackQuery envC10 "q" ledgerC10).sources.length
        = (topPapers envC10 "q" ledgerC10).length ∧
    (topPapers envC10 "q" ledgerC10).length ≤ 3 ∧
    (fallbackQuery envC10 "q" ledgerC10).sources.map (fun s => s.chunk_id)
        = List.range (topPapers envC10 "q" ledgerC10).length ∧
    (fallbackQuery envC10 "q" ledgerC10).sources.map (fun s => s.source)
        = (topPapers envC10 "q" ledgerC10).map (fun p => p.filename) ∧
    (fallbackQuery envC10 "q" ledgerC10).sources.map (fun s => s.pdf_link)
        = (topPapers envC10 "q" ledgerC10).map (fun p => some ("/paper/" ++ p.filename)) ∧
    (fallbackQuery envC10 "q" ledgerC10).sources.map (fun s => s.summary_link)
        = (topPapers envC10 "q" ledgerC10).map
            (fun p => some ("/paper/" ++ p.filename ++ "/summary")) :=
  C10_fallback_citations envC10 "q" ledgerC10 "ANS" rfl rfl (by decide)

end ResearchSearch

